import Mathlib

/-!
Shallow embedding of `src/cdk-deploy/cdk_deploy.py` (TakuyaSuenaga/cdk-image-builder).

The algorithmic core of the script is the `ImageBuilderManager` class: version
resolution over dotted version strings (`get_latest_version`, Python `max`
with an integer-tuple key), discovery of available versions from YAML file
stems (`get_component_versions`, `get_recipe_versions`), file loading
(`load_component`, `load_recipe`), and component-version resolution inside a
loaded recipe (`resolve_recipe_components`).  The `ImageBuilderStack` remote
lookups (`_get_existing_component_arn`, `_get_existing_recipe_arn`,
`_create_components`) and the try/except wrapper of the `main` entry point are
embedded with the remote answers passed in as explicit arguments.

Python values parsed from YAML are modelled by `PyVal`; Python dicts by
association lists in insertion order (`.items()` order, key assignment keeps
the position of an existing key).  Python exceptions are modelled by `Except PyErr`:
`ValueError`, `FileNotFoundError`, `KeyError`, and a generic `typeError` for
`TypeError`/`AttributeError` raised on ill-typed data.  The local filesystem
is modelled by `FileSystem`: the parsed contents of the `*.yaml` files under
`components/<name>/` and `recipes/`, indexed by file stem, in directory
enumeration order.
-/

namespace CdkDeploy

/-- A Python value as produced by `yaml.safe_load`: strings, integers,
booleans, `None`, lists and string-keyed dicts (association lists in
insertion order). -/
inductive PyVal where
  | str : String → PyVal
  | int : Int → PyVal
  | bool : Bool → PyVal
  | null : PyVal
  | list : List PyVal → PyVal
  | dict : List (String × PyVal) → PyVal

/-- A Python dict with string keys, in insertion order. -/
abbrev PyDict := List (String × PyVal)

/-- The exceptions the script can raise: `ValueError` (with its message),
`FileNotFoundError` (with its message), `KeyError` (with the missing key),
and a generic constructor for `TypeError`/`AttributeError` on ill-typed
data. -/
inductive PyErr where
  | valueError : String → PyErr
  | fileNotFoundError : String → PyErr
  | keyError : String → PyErr
  | typeError : PyErr
deriving DecidableEq

instance {ε α : Type} [DecidableEq ε] [DecidableEq α] :
    DecidableEq (Except ε α) := fun a b =>
  match a, b with
  | .error e, .error f =>
    if h : e = f then isTrue (by rw [h]) else
      isFalse (by intro hc; cases hc; exact h rfl)
  | .error _, .ok _ => isFalse (by intro hc; cases hc)
  | .ok _, .error _ => isFalse (by intro hc; cases hc)
  | .ok x, .ok y =>
    if h : x = y then isTrue (by rw [h]) else
      isFalse (by intro hc; cases hc; exact h rfl)

/-- Value of a nonempty all-digit character list, `none` otherwise. -/
def digitsToNat (cs : List Char) : Option Nat :=
  if cs.isEmpty then Option.none
  else if cs.all Char.isDigit then
    some (cs.foldl (fun a c => a * 10 + (c.toNat - 48)) 0)
  else Option.none

/-- Python `int(s)` on a version segment: an optional sign followed by a
nonempty digit string (surrounding whitespace and digit-group underscores,
which Python also accepts, are not modelled; no claim exercises them). -/
def pyInt (s : String) : Option Int :=
  match s.data with
  | [] => Option.none
  | c :: rest =>
    if c = '+' then (digitsToNat rest).map Int.ofNat
    else if c = '-' then (digitsToNat rest).map (fun n => -(Int.ofNat n))
    else (digitsToNat (c :: rest)).map Int.ofNat

/-- Helper for `splitDot`: consume the remaining characters, accumulating
the current (reversed) segment. -/
def splitDotAux : List Char → List Char → List String
  | [], acc => [String.mk acc.reverse]
  | c :: rest, acc =>
    if c = '.' then String.mk acc.reverse :: splitDotAux rest []
    else splitDotAux rest (c :: acc)

/-- Python `v.split('.')`: segments between the dots, keeping empty
segments (`"".split('.') == [""]`, `".".split('.') == ["", ""]`). -/
def splitDot (v : String) : List String :=
  splitDotAux v.data []

/-- `version_key` from `get_latest_version` (line 48):
`tuple(map(int, v.split('.')))`.  `none` models the `ValueError` raised by
`int` on a non-integer segment. -/
def version_key (v : String) : Option (List Int) :=
  (splitDot v).mapM pyInt

/-- Strict lexicographic comparison of Python integer tuples (`<` on Python
tuples): a proper prefix is smaller. -/
def tupleLt : List Int → List Int → Bool
  | [], [] => false
  | [], _ :: _ => true
  | _ :: _, [] => false
  | a :: as, b :: bs => if a < b then true else if a = b then tupleLt as bs else false

/-- The iteration of Python `max(versions, key=version_key)` after the first
element: keep the current maximum `cur` (with key `k`), replace it only when
the key of a later element is strictly greater, and raise `ValueError` the moment
a key fails to parse. -/
def maxFold (cur : String) (k : List Int) : List String → Except PyErr String
  | [] => .ok cur
  | u :: rest =>
    match version_key u with
    | Option.none =>
      .error (.valueError ("invalid literal for int() with base 10 in " ++ u))
    | some ku => if tupleLt k ku then maxFold u ku rest else maxFold cur k rest

/-- `ImageBuilderManager.get_latest_version` (lines 46-51):
`max(versions, key=lambda v: tuple(map(int, v.split('.'))))`.  An empty list
raises `ValueError`; an unparseable segment raises `ValueError`; otherwise
the first element whose key is lexicographically maximal is returned. -/
def get_latest_version (versions : List String) : Except PyErr String :=
  match versions with
  | [] => .error (.valueError "max() arg is an empty sequence")
  | v :: rest =>
    match version_key v with
    | Option.none =>
      .error (.valueError ("invalid literal for int() with base 10 in " ++ v))
    | some k => maxFold v k rest

/-- The local YAML tree the manager reads: for each component directory
`components/<name>/`, the parsed `*.yaml` files as (stem, content) pairs in
directory enumeration order; likewise the `recipes/*.yaml` files. -/
structure FileSystem where
  components : List (String × List (String × PyVal))
  recipes : List (String × PyVal)

/-- First-match association-list lookup (Python dict lookup; also used for
file lookup by stem). -/
def assocFind {α : Type} : List (String × α) → String → Option α
  | [], _ => Option.none
  | (k, v) :: rest, key => if k = key then some v else assocFind rest key

/-- `dict.get(key, default)`. -/
def dictGetD (d : PyDict) (k : String) (dflt : PyVal) : PyVal :=
  (assocFind d k).getD dflt

/-- Python dict assignment `d[k] = v`: an existing key keeps its position,
a new key is appended. -/
def dictSet (d : PyDict) (k : String) (v : PyVal) : PyDict :=
  match d with
  | [] => [(k, v)]
  | (k2, w) :: rest =>
    if k2 = k then (k2, v) :: rest else (k2, w) :: dictSet rest k v

/-- `ImageBuilderManager.get_component_versions` (lines 53-64): the stems of
`components/<name>/*.yaml`, or `[]` when the directory does not exist. -/
def get_component_versions (fs : FileSystem) (component_name : String) :
    List String :=
  match assocFind fs.components component_name with
  | Option.none => []
  | some files => files.map (fun f => f.1)

/-- `ImageBuilderManager.get_recipe_versions` (lines 66-73): the stems of
`recipes/*.yaml`. -/
def get_recipe_versions (fs : FileSystem) : List String :=
  fs.recipes.map (fun f => f.1)

/-- Lines 83-89 of `load_component`: open
`components/<name>/<version>.yaml`, raising `FileNotFoundError` when the
file does not exist. -/
def read_component_file (fs : FileSystem) (component_name version : String) :
    Except PyErr PyVal :=
  match (assocFind fs.components component_name).bind
      (fun files => assocFind files version) with
  | Option.none =>
    .error (.fileNotFoundError
      ("Component file not found: components/" ++ component_name ++ "/" ++
        version ++ ".yaml"))
  | some y => .ok y

/-- `ImageBuilderManager.load_component` (lines 75-89): the sentinel
`"x.x.x"` is replaced by the latest available version (raising `ValueError`
when none exist), then the file is read. -/
def load_component (fs : FileSystem) (component_name : String)
    (version : String) : Except PyErr PyVal :=
  if version = "x.x.x" then
    let available_versions := get_component_versions fs component_name
    if available_versions.isEmpty then
      .error (.valueError ("Component " ++ component_name ++ " not found"))
    else
      match get_latest_version available_versions with
      | .error e => .error e
      | .ok v => read_component_file fs component_name v
  else
    read_component_file fs component_name version

/-- Lines 99-105 of `load_recipe`: open `recipes/<version>.yaml`, raising
`FileNotFoundError` when the file does not exist. -/
def read_recipe_file (fs : FileSystem) (version : String) :
    Except PyErr PyVal :=
  match assocFind fs.recipes version with
  | Option.none =>
    .error (.fileNotFoundError
      ("Recipe file not found: recipes/" ++ version ++ ".yaml"))
  | some y => .ok y

/-- `ImageBuilderManager.load_recipe` (lines 91-105): the sentinel
`"latest"` is replaced by the latest available recipe version (raising
`ValueError` when none exist), then the file is read. -/
def load_recipe (fs : FileSystem) (version : String) : Except PyErr PyVal :=
  if version = "latest" then
    let available_versions := get_recipe_versions fs
    if available_versions.isEmpty then
      .error (.valueError "No recipe files found")
    else
      match get_latest_version available_versions with
      | .error e => .error e
      | .ok v => read_recipe_file fs v
  else
    read_recipe_file fs version

/-- The per-component body of the loop in
`ImageBuilderManager.resolve_recipe_components` (lines 114-120): a version
equal to the sentinel `"x.x.x"` is replaced by the latest available version
when at least one version is available (`if available_versions:`), and is
left unchanged otherwise; a non-sentinel version (including any non-string
value, which the Python `==` operator compares unequal to `"x.x.x"`) is returned
unchanged.  `get_latest_version` may still raise `ValueError` on an
unparseable stem. -/
def resolve_component_version (fs : FileSystem) (component_name : String)
    (component_version : PyVal) : Except PyErr PyVal :=
  match component_version with
  | .str s =>
    if s = "x.x.x" then
      let available_versions := get_component_versions fs component_name
      if available_versions.isEmpty then .ok (.str s)
      else
        match get_latest_version available_versions with
        | .error e => .error e
        | .ok v => .ok (.str v)
    else .ok (.str s)
  | v => .ok v

/-- One `(component_name, component_info)` item of a component config
(lines 113-126): `component_info.get("Version", "x.x.x")` (raising
`AttributeError` when `component_info` is not a dict), resolution of the
version, and the rebuilt entry mapping the component name to a dict holding only the resolved `Version`. -/
def resolve_pair (fs : FileSystem) (p : String × PyVal) : Except PyErr PyVal :=
  match p.2 with
  | .dict component_info =>
    match resolve_component_version fs p.1
        (dictGetD component_info "Version" (.str "x.x.x")) with
    | .error e => .error e
    | .ok v => .ok (.dict [(p.1, .dict [("Version", v)])])
  | _ => .error .typeError

/-- The inner loop of `resolve_recipe_components` (line 113): resolve each
`(component_name, component_info)` item of one config dict in order. -/
def resolve_items (fs : FileSystem) : List (String × PyVal) →
    Except PyErr (List PyVal)
  | [] => .ok []
  | p :: rest =>
    match resolve_pair fs p with
    | .error e => .error e
    | .ok r =>
      match resolve_items fs rest with
      | .error e => .error e
      | .ok rs => .ok (r :: rs)

/-- The nested loops of `resolve_recipe_components` (lines 112-126): for
each config dict in the `Components` list (`.items()` raising on a
non-dict), resolve each item in order and append the rebuilt entries. -/
def resolve_config_list (fs : FileSystem) : List PyVal →
    Except PyErr (List PyVal)
  | [] => .ok []
  | c :: rest =>
    match c with
    | .dict items =>
      match resolve_items fs items with
      | .error e => .error e
      | .ok rs =>
        match resolve_config_list fs rest with
        | .error e => .error e
        | .ok rest2 => .ok (rs ++ rest2)
    | _ => .error .typeError

/-- `ImageBuilderManager.resolve_recipe_components` (lines 107-129): copy
the recipe, rebuild its `Components` list (`recipe.get` of `Components` with default `[]`)
with each component version resolved, and store it back under
the `Components` key. -/
def resolve_recipe_components (fs : FileSystem) (recipe : PyDict) :
    Except PyErr PyDict :=
  match dictGetD recipe "Components" (.list []) with
  | .list component_configs =>
    match resolve_config_list fs component_configs with
    | .error e => .error e
    | .ok resolved_components =>
      .ok (dictSet recipe "Components" (.list resolved_components))
  | _ => .error .typeError

/-- The `(component_name, component_info)` items of one config dict (the
inner `.items()` iteration); `[]` for a non-dict config. -/
def config_items (c : PyVal) : List (String × PyVal) :=
  match c with
  | .dict items => items
  | _ => []

/-- The `(component_name, component_info)` items of the `Components` list
of a recipe, flattened across the config dicts in order (the iteration order of
the loops in `resolve_recipe_components` and in `main`). -/
def component_pairs (recipe : PyDict) : List (String × PyVal) :=
  match dictGetD recipe "Components" (.list []) with
  | .list l => l.flatMap config_items
  | _ => []

/-- `component_info.get("Version", "x.x.x")` for the info value of a
component item. -/
def info_version (info : PyVal) : PyVal :=
  match info with
  | .dict d => dictGetD d "Version" (.str "x.x.x")
  | _ => .str "x.x.x"

/-- A summary entry of the remote `list_components` / `list_image_recipes`
responses: the fields `name`, `version` and `arn` the script reads. -/
structure ResourceSummary where
  name : String
  version : String
  arn : String

/-- `ImageBuilderStack._get_existing_component_arn` (lines 280-305), with
the outcome of the `list_components` call passed in: any raised error is
caught and turned into `None`; otherwise the `arn` of the first summary
matching both name and version is returned, or `None` when there is no
match. -/
def get_existing_component_arn
    (list_components : Except String (List ResourceSummary))
    (name version : String) : Option String :=
  match list_components with
  | .error _ => Option.none
  | .ok componentList =>
    (componentList.find?
      (fun s => s.name == name && s.version == version)).map (fun s => s.arn)

/-- `ImageBuilderStack._get_existing_recipe_arn` (lines 307-331), with the
pages of the `list_image_recipes` paginator passed in: any raised error is
caught and turned into `None`; otherwise the `arn` of the first summary in
page order matching both name and version is returned, or `None` when there
is no match. -/
def get_existing_recipe_arn
    (pages : Except String (List (List ResourceSummary)))
    (name version : String) : Option String :=
  match pages with
  | .error _ => Option.none
  | .ok pageList =>
    ((pageList.flatMap id).find?
      (fun s => s.name == name && s.version == version)).map (fun s => s.arn)

/-- The two ways `_create_components` fills its result dict: a dummy
`ExistingImageBuilderComponent` holding an existing ARN, or a new
`imagebuilder.CfnComponent` declaration built from the `Name`,
`Platform`, `Version` and `Data` fields of the component data. -/
inductive ComponentResource where
  | existingComponent (arn : String)
  | cfnComponent (name platform version data : PyVal)

/-- Python `d[k]`: `KeyError` when the key is absent. -/
def dictGetE (d : PyDict) (k : String) : Except PyErr PyVal :=
  match assocFind d k with
  | some v => .ok v
  | Option.none => .error (.keyError k)

/-- Extract the string of a `PyVal` expected to be used as a version
string; ill-typed data is reported as a `typeError`. -/
def asStr (v : PyVal) : Except PyErr String :=
  match v with
  | .str s => .ok s
  | _ => .error .typeError

/-- `ImageBuilderStack._create_components` (lines 333-356), with the remote
`list_components` answer passed in per (name, version): for the data of each
component, read the `Version` entry of the data, look up an existing ARN, and either
reference the existing component or declare a new `CfnComponent` from the `Name`,
`Platform`, `Version` and `Data` fields of the data. -/
def create_components
    (list_components : String → String → Except String (List ResourceSummary)) :
    List (String × PyDict) → Except PyErr (List (String × ComponentResource))
  | [] => .ok []
  | (component_name, component_data) :: rest =>
    match dictGetE component_data "Version" with
    | .error e => .error e
    | .ok vval =>
      match asStr vval with
      | .error e => .error e
      | .ok version =>
        match
          (match get_existing_component_arn
              (list_components component_name version)
              component_name version with
          | some arn => Except.ok (ComponentResource.existingComponent arn)
          | Option.none =>
            match dictGetE component_data "Name",
                dictGetE component_data "Platform",
                dictGetE component_data "Data" with
            | .ok n, .ok p, .ok d =>
              Except.ok (ComponentResource.cfnComponent n p vval d)
            | .error e, _, _ => Except.error e
            | _, .error e, _ => Except.error e
            | _, _, .error e => Except.error e) with
        | .error e => .error e
        | .ok r =>
          match create_components list_components rest with
          | .error e => .error e
          | .ok rs => .ok ((component_name, r) :: rs)

/-- The component-loading loop of `main` (lines 501-507): for each
`(component_name, component_info)` item of the `Components` list of the
resolved recipe, read the `Version` entry of the info dict (a `KeyError` when
absent, a `typeError` stands for the non-string case) and load the
component file. -/
def load_item (fs : FileSystem) (p : String × PyVal) :
    Except PyErr (String × PyVal) :=
  match p.2 with
  | .dict info =>
    (match assocFind info "Version" with
    | Option.none => Except.error (PyErr.keyError "Version")
    | some vv =>
      match asStr vv with
      | .error e => Except.error e
      | .ok cv =>
        match load_component fs p.1 cv with
        | .error e => Except.error e
        | .ok d => Except.ok (p.1, d))
  | _ => Except.error PyErr.typeError

/-- The inner items loop of the component loading in `main`. -/
def load_items (fs : FileSystem) : List (String × PyVal) →
    Except PyErr (List (String × PyVal))
  | [] => .ok []
  | p :: rest =>
    match load_item fs p with
    | .error e => .error e
    | .ok r =>
      match load_items fs rest with
      | .error e => .error e
      | .ok rs => .ok (r :: rs)

/-- The outer loop of the component loading in `main` over the `Components`
list. -/
def load_components_loop (fs : FileSystem) : List PyVal →
    Except PyErr (List (String × PyVal))
  | [] => .ok []
  | c :: rest =>
    match c with
    | .dict items =>
      match load_items fs items with
      | .error e => .error e
      | .ok loaded =>
        match load_components_loop fs rest with
        | .error e => .error e
        | .ok rest2 => .ok (loaded ++ rest2)
    | _ => .error .typeError

/-- The body of the `try:` block of `main` up to component loading (lines
492-507): load the recipe for the requested version, resolve its component
versions, read its `Name` and `Version` for the progress message, and load
every referenced component.  The subsequent CDK stack synthesis (remote
calls and `app.synth()`) is abstracted by the caller-supplied `synth`
continuation, which may itself raise. -/
def main_run (fs : FileSystem) (recipe_version : String) :
    Except PyErr (PyDict × List (String × PyVal)) :=
  match load_recipe fs recipe_version with
  | .error e => .error e
  | .ok recipe_data =>
    match recipe_data with
    | .dict recipe_dict =>
      match resolve_recipe_components fs recipe_dict with
      | .error e => .error e
      | .ok resolved_recipe =>
        match dictGetE resolved_recipe "Name",
            dictGetE resolved_recipe "Version" with
        | .ok _, .ok _ =>
          (match dictGetE resolved_recipe "Components" with
          | .error e => .error e
          | .ok comps =>
            match comps with
            | .list l =>
              (match load_components_loop fs l with
              | .error e => Except.error e
              | .ok components_data =>
                Except.ok (resolved_recipe, components_data))
            | _ => .error .typeError)
        | .error e, _ => .error e
        | _, .error e => .error e
    | _ => .error .typeError

/-- Render a raised exception the way `print(f"Error: {e}", ...)` does:
the message carried by the exception. -/
def errMessage : PyErr → String
  | .valueError m => m
  | .fileNotFoundError m => m
  | .keyError k => k
  | .typeError => "type error"

/-- The `main` entry point (lines 486-529): everything runs inside one
`try:`; on any raised exception the handler prints `Error: ...` to stderr
and calls `sys.exit(1)`; otherwise the process ends with exit status 0 and
no error diagnostic.  The result is (exit status, optional diagnostic). -/
def python_main (fs : FileSystem) (recipe_version : String)
    (synth : PyDict → List (String × PyVal) → Except PyErr Unit) :
    Nat × Option String :=
  match
    (match main_run fs recipe_version with
    | .error e => Except.error e
    | .ok (r, c) =>
      match synth r c with
      | .error e => Except.error e
      | .ok _ => Except.ok ()) with
  | .ok _ => (0, Option.none)
  | .error e => (1, some ("Error: " ++ errMessage e))

/-! ### Properties of the tuple order -/

theorem tupleLt_irrefl : ∀ a, tupleLt a a = false
  | [] => rfl
  | x :: xs => by
    simp only [tupleLt, lt_irrefl, if_false, if_pos rfl, tupleLt_irrefl xs,
      ite_self]

theorem tupleLt_trans : ∀ a b c, tupleLt a b = true → tupleLt b c = true →
    tupleLt a c = true
  | [], [], _, h, _ => by simp [tupleLt] at h
  | [], _ :: _, [], _, h => by simp [tupleLt] at h
  | [], _ :: _, _ :: _, _, _ => rfl
  | _ :: _, [], _, h, _ => by simp [tupleLt] at h
  | _ :: _, _ :: _, [], _, h => by simp [tupleLt] at h
  | a :: as, b :: bs, c :: cs, hab, hbc => by
    simp only [tupleLt] at hab hbc ⊢
    by_cases h1 : a < b
    · by_cases h2 : b < c
      · simp [lt_trans h1 h2]
      · simp only [if_neg h2] at hbc
        by_cases h3 : b = c
        · subst h3; simp [h1]
        · simp [if_neg h3] at hbc
    · simp only [if_neg h1] at hab
      by_cases h3 : a = b
      · subst h3
        simp only [if_pos rfl] at hab
        by_cases h2 : a < c
        · simp [h2]
        · simp only [if_neg h2] at hbc ⊢
          by_cases h4 : a = c
          · subst h4
            simp only [if_pos rfl] at hbc ⊢
            exact tupleLt_trans as bs cs hab hbc
          · simp [if_neg h4] at hbc
      · simp [if_neg h3] at hab

theorem tupleLt_asymm {a b : List Int} (h1 : tupleLt a b = true)
    (h2 : tupleLt b a = true) : False := by
  have := tupleLt_trans a b a h1 h2
  rw [tupleLt_irrefl] at this
  exact Bool.false_ne_true this

theorem tupleLt_connex : ∀ a b, tupleLt a b = false → tupleLt b a = false →
    a = b
  | [], [], _, _ => rfl
  | [], _ :: _, h, _ => by simp [tupleLt] at h
  | _ :: _, [], _, h => by simp [tupleLt] at h
  | a :: as, b :: bs, hab, hba => by
    simp only [tupleLt] at hab hba
    by_cases h1 : a < b
    · simp [h1] at hab
    · by_cases h2 : b < a
      · simp [h2] at hba
      · have hueq : a = b := le_antisymm (not_lt.mp h2) (not_lt.mp h1)
        subst hueq
        simp only [if_neg h1, if_pos rfl] at hab hba
        rw [tupleLt_connex as bs hab hba]

/-- If the key of the current maximum is not below `k`, and `k` is not below any
processed key, replacing by a strictly greater key preserves "not below any
processed key". -/
theorem tupleLt_shift {k ku kv : List Int} (h1 : tupleLt k kv = false)
    (h2 : tupleLt k ku = true) : tupleLt ku kv = false := by
  cases h3 : tupleLt ku kv with
  | false => rfl
  | true =>
    have := tupleLt_trans k ku kv h2 h3
    rw [h1] at this
    exact absurd this (by simp)

/-! ### Specification of `get_latest_version` -/

theorem maxFold_ok_spec : ∀ (rest : List String) (cur : String)
    (k : List Int) (r : String), version_key cur = some k →
    maxFold cur k rest = .ok r →
    ∃ kr, version_key r = some kr ∧ (r = cur ∨ r ∈ rest) ∧
      tupleLt kr k = false ∧
      ∀ u ∈ rest, ∃ ku, version_key u = some ku ∧ tupleLt kr ku = false
  | [], cur, k, r, hk, h => by
    simp only [maxFold, Except.ok.injEq] at h
    subst h
    exact ⟨k, hk, Or.inl rfl, tupleLt_irrefl k, by simp⟩
  | u :: rest, cur, k, r, hk, h => by
    cases hku : version_key u with
    | none => simp only [maxFold, hku] at h; exact Except.noConfusion h
    | some ku =>
      simp only [maxFold, hku] at h
      by_cases hlt : tupleLt k ku = true
      · rw [if_pos hlt] at h
        obtain ⟨kr, hkr, hmem, hge, hall⟩ := maxFold_ok_spec rest u ku r hku h
        refine ⟨kr, hkr, ?_, ?_, ?_⟩
        · rcases hmem with h1 | h1
          · exact Or.inr (h1 ▸ List.mem_cons_self u rest)
          · exact Or.inr (List.mem_cons_of_mem u h1)
        · cases h2 : tupleLt kr k with
          | false => rfl
          | true =>
            have := tupleLt_trans kr k ku h2 hlt
            rw [hge] at this
            exact absurd this (by simp)
        · intro w hw
          rcases List.mem_cons.mp hw with h1 | h1
          · exact ⟨ku, h1 ▸ hku, hge⟩
          · exact hall w h1
      · rw [if_neg hlt] at h
        obtain ⟨kr, hkr, hmem, hge, hall⟩ := maxFold_ok_spec rest cur k r hk h
        refine ⟨kr, hkr, ?_, hge, ?_⟩
        · rcases hmem with h1 | h1
          · exact Or.inl h1
          · exact Or.inr (List.mem_cons_of_mem u h1)
        · intro w hw
          have hknku : tupleLt k ku = false := Bool.of_not_eq_true hlt
          rcases List.mem_cons.mp hw with h1 | h1
          · subst h1
            refine ⟨ku, hku, ?_⟩
            cases h2 : tupleLt kr ku with
            | false => rfl
            | true =>
              cases h3 : tupleLt k kr with
              | false =>
                have h4 := tupleLt_connex kr k hge h3
                rw [h4] at h2
                rw [h2] at hknku
                exact absurd hknku (by simp)
              | true =>
                have := tupleLt_trans k kr ku h3 h2
                rw [hknku] at this
                exact absurd this (by simp)
          · exact hall w h1

theorem maxFold_ok_of_parse : ∀ (rest : List String) (cur : String)
    (k : List Int), (∀ u ∈ rest, (version_key u).isSome) →
    ∃ r, maxFold cur k rest = .ok r
  | [], cur, k, _ => ⟨cur, rfl⟩
  | u :: rest, cur, k, hall => by
    have hu := hall u (List.mem_cons_self u rest)
    cases hku : version_key u with
    | none => rw [hku] at hu; exact absurd hu (by simp)
    | some ku =>
      have hrest : ∀ w ∈ rest, (version_key w).isSome :=
        fun w hw => hall w (List.mem_cons_of_mem u hw)
      simp only [maxFold, hku]
      by_cases hlt : tupleLt k ku = true
      · rw [if_pos hlt]
        exact maxFold_ok_of_parse rest u ku hrest
      · rw [if_neg hlt]
        exact maxFold_ok_of_parse rest cur k hrest

/-- `get_latest_version versions = .ok r` implies: `r` is an element, every
key of every element parses, and no key of an element is strictly above that of
`r`. -/
theorem get_latest_version_ok_spec (versions : List String) (r : String)
    (h : get_latest_version versions = .ok r) :
    r ∈ versions ∧ ∃ kr, version_key r = some kr ∧
      ∀ v ∈ versions, ∃ kv, version_key v = some kv ∧
        tupleLt kr kv = false := by
  cases versions with
  | nil => exact absurd h (by simp [get_latest_version])
  | cons v rest =>
    simp only [get_latest_version] at h
    cases hkv : version_key v with
    | none => rw [hkv] at h; exact absurd h (by simp)
    | some k =>
      rw [hkv] at h
      obtain ⟨kr, hkr, hmem, hge, hall⟩ := maxFold_ok_spec rest v k r hkv h
      refine ⟨?_, kr, hkr, ?_⟩
      · rcases hmem with h1 | h1
        · exact h1 ▸ List.mem_cons_self v rest
        · exact List.mem_cons_of_mem v h1
      · intro w hw
        rcases List.mem_cons.mp hw with h1 | h1
        · exact ⟨k, h1 ▸ hkv, hge⟩
        · exact hall w h1

/-- `get_latest_version` succeeds on any nonempty list of version strings
whose keys all parse. -/
theorem get_latest_version_ok_of_parse (versions : List String)
    (hne : versions ≠ [])
    (hall : ∀ v ∈ versions, (version_key v).isSome) :
    ∃ r, get_latest_version versions = .ok r := by
  cases versions with
  | nil => exact absurd rfl hne
  | cons v rest =>
    have hv := hall v (List.mem_cons_self v rest)
    cases hkv : version_key v with
    | none => rw [hkv] at hv; exact absurd hv (by simp)
    | some k =>
      simp only [get_latest_version, hkv]
      exact maxFold_ok_of_parse rest v k
        (fun w hw => hall w (List.mem_cons_of_mem v hw))

/-! ### Dict lemmas -/

theorem assocFind_dictSet_self : ∀ (d : PyDict) (k : String) (v : PyVal),
    assocFind (dictSet d k v) k = some v
  | [], k, v => by simp [dictSet, assocFind]
  | (k2, w) :: rest, k, v => by
    by_cases h : k2 = k
    · simp [dictSet, assocFind, h]
    · simp only [dictSet, if_neg h, assocFind]
      exact assocFind_dictSet_self rest k v


theorem assocFind_dictSet_other : ∀ (d : PyDict) (k : String) (v : PyVal)
    (k2 : String), k2 ≠ k → assocFind (dictSet d k v) k2 = assocFind d k2
  | [], k, v, k2, h => by
    simp only [dictSet, assocFind]
    rw [if_neg (Ne.symm h)]
  | (k3, w) :: rest, k, v, k2, h => by
    by_cases h3 : k3 = k
    · subst h3
      simp only [dictSet, if_pos rfl, assocFind]
      rw [if_neg (Ne.symm h), if_neg (Ne.symm h)]
    · simp only [dictSet, if_neg h3, assocFind]
      by_cases h4 : k3 = k2
      · rw [if_pos h4, if_pos h4]
      · rw [if_neg h4, if_neg h4]
        exact assocFind_dictSet_other rest k v k2 h

theorem assocFind_of_mem_keys {α : Type} : ∀ (l : List (String × α))
    (k : String), k ∈ l.map Prod.fst → ∃ v, assocFind l k = some v
  | [], k, h => absurd h (by simp)
  | (k2, w) :: rest, k, h => by
    by_cases h2 : k2 = k
    · exact ⟨w, by simp [assocFind, h2]⟩
    · simp only [assocFind, if_neg h2]
      rcases List.mem_map.mp h with ⟨p, hp, hk⟩
      rcases List.mem_cons.mp hp with h3 | h3
      · exact absurd (by rw [h3] at hk; exact hk) h2
      · exact assocFind_of_mem_keys rest k
          (List.mem_map.mpr ⟨p, h3, hk⟩)

/-! ### Specification of the component-resolution loops -/

/-- The relation between one input `(component_name, component_info)` item
and its rebuilt entry in the resolved `Components` list. -/
def ResolvedEntry (fs : FileSystem) (p : String × PyVal) (r : PyVal) :
    Prop :=
  ∃ v, resolve_component_version fs p.1 (info_version p.2) = .ok v ∧
    r = PyVal.dict [(p.1, PyVal.dict [("Version", v)])]

theorem resolve_pair_ok_spec (fs : FileSystem) (p : String × PyVal)
    (r : PyVal) (h : resolve_pair fs p = .ok r) : ResolvedEntry fs p r := by
  rcases p with ⟨n, info⟩
  cases info with
  | dict d =>
    simp only [resolve_pair] at h
    cases hres : resolve_component_version fs n
        (dictGetD d "Version" (.str "x.x.x")) with
    | error e => rw [hres] at h; exact Except.noConfusion h
    | ok v =>
      rw [hres] at h
      refine ⟨v, ?_, (Except.ok.injEq _ _).mp h.symm⟩
      simpa [info_version] using hres
  | str s => exact Except.noConfusion h
  | int i => exact Except.noConfusion h
  | bool b => exact Except.noConfusion h
  | null => exact Except.noConfusion h
  | list l => exact Except.noConfusion h

theorem resolve_items_ok_spec (fs : FileSystem) :
    ∀ (items : List (String × PyVal)) (rs : List PyVal),
    resolve_items fs items = .ok rs →
    List.Forall₂ (ResolvedEntry fs) items rs
  | [], rs, h => by
    simp only [resolve_items, Except.ok.injEq] at h
    subst h
    exact List.Forall₂.nil
  | p :: rest, rs, h => by
    simp only [resolve_items] at h
    cases hp : resolve_pair fs p with
    | error e => rw [hp] at h; exact Except.noConfusion h
    | ok r =>
      rw [hp] at h
      cases hrest : resolve_items fs rest with
      | error e => rw [hrest] at h; exact Except.noConfusion h
      | ok rs2 =>
        rw [hrest] at h
        cases (Except.ok.injEq _ _).mp h
        exact List.Forall₂.cons (resolve_pair_ok_spec fs p r hp)
          (resolve_items_ok_spec fs rest rs2 hrest)

theorem resolve_config_list_ok_spec (fs : FileSystem) :
    ∀ (configs : List PyVal) (out : List PyVal),
    resolve_config_list fs configs = .ok out →
    List.Forall₂ (ResolvedEntry fs) (configs.flatMap config_items) out
  | [], out, h => by
    simp only [resolve_config_list, Except.ok.injEq] at h
    subst h
    simp only [List.flatMap_nil]
    exact List.Forall₂.nil
  | c :: rest, out, h => by
    cases c with
    | dict items =>
      simp only [resolve_config_list] at h
      cases hitems : resolve_items fs items with
      | error e => rw [hitems] at h; exact Except.noConfusion h
      | ok rs =>
        rw [hitems] at h
        cases hrest : resolve_config_list fs rest with
        | error e => rw [hrest] at h; exact Except.noConfusion h
        | ok rest2 =>
          rw [hrest] at h
          cases (Except.ok.injEq _ _).mp h
          simp only [List.flatMap_cons, config_items]
          exact List.rel_append
            (resolve_items_ok_spec fs items rs hitems)
            (resolve_config_list_ok_spec fs rest rest2 hrest)
    | str s => exact Except.noConfusion h
    | int i => exact Except.noConfusion h
    | bool b => exact Except.noConfusion h
    | null => exact Except.noConfusion h
    | list l => exact Except.noConfusion h

/-! ### Claim theorems -/

/-- C1: For every non-empty list of valid dotted version strings (every
dot-separated segment parses as an integer), `get_latest_version` succeeds
and selects an element of the list whose tuple of integer segments is
maximal under lexicographic integer-tuple ordering (the tuple of no
other element is strictly above it); in particular the latest of
{"1.2.0", "1.10.0", "1.9.9"} is "1.10.0" and "2.0.0" beats "1.99.0". -/
theorem latest_selects_integer_tuple_max :
    (∀ versions : List String, versions ≠ [] →
      (∀ v ∈ versions, (version_key v).isSome) →
      ∃ r kr, get_latest_version versions = .ok r ∧ r ∈ versions ∧
        version_key r = some kr ∧
        ∀ v kv, v ∈ versions → version_key v = some kv →
          tupleLt kr kv = false) ∧
    get_latest_version ["1.2.0", "1.10.0", "1.9.9"] = .ok "1.10.0" ∧
    get_latest_version ["2.0.0", "1.99.0"] = .ok "2.0.0" := by
  refine ⟨?_, by decide, by decide⟩
  intro versions hne hall
  obtain ⟨r, hr⟩ := get_latest_version_ok_of_parse versions hne hall
  obtain ⟨hmem, kr, hkr, hmax⟩ := get_latest_version_ok_spec versions r hr
  refine ⟨r, kr, hr, hmem, hkr, ?_⟩
  intro v kv hv hkv
  obtain ⟨kv2, hkv2, hle⟩ := hmax v hv
  have heq : kv2 = kv := Option.some.inj (hkv2.symm.trans hkv)
  exact heq ▸ hle

/-- Witness for C1 at the list {"1.2.0", "1.10.0", "1.9.9"}. -/
theorem latest_selects_integer_tuple_max_witness :
    ((["1.2.0", "1.10.0", "1.9.9"] : List String) ≠ [] ∧
      (∀ v ∈ (["1.2.0", "1.10.0", "1.9.9"] : List String),
        (version_key v).isSome)) ∧
    (∃ r kr,
      get_latest_version ["1.2.0", "1.10.0", "1.9.9"] = .ok r ∧
      r ∈ (["1.2.0", "1.10.0", "1.9.9"] : List String) ∧
      version_key r = some kr ∧
      ∀ v kv, v ∈ (["1.2.0", "1.10.0", "1.9.9"] : List String) →
        version_key v = some kv → tupleLt kr kv = false) :=
  ⟨⟨by decide, by decide⟩,
    latest_selects_integer_tuple_max.1 _ (by decide) (by decide)⟩

/-- C2: A requested component version that is not the `"x.x.x"` sentinel is
returned unchanged by resolution, for every filesystem (so regardless of the
available version set, with no existence check against it); resolution is
idempotent (resolving a successfully resolved version again returns it
unchanged); and `load_component` with a concrete version goes straight to
reading the file, consulting no version listing. -/
theorem resolve_concrete_version_identity :
    (∀ (fs : FileSystem) (component_name : String) (v : PyVal),
      v ≠ .str "x.x.x" →
      resolve_component_version fs component_name v = .ok v) ∧
    (∀ (fs : FileSystem) (component_name : String) (v r : PyVal),
      resolve_component_version fs component_name v = .ok r →
      resolve_component_version fs component_name r = .ok r) ∧
    (∀ (fs : FileSystem) (component_name version : String),
      version ≠ "x.x.x" →
      load_component fs component_name version =
        read_component_file fs component_name version) := by
  have hconc : ∀ (fs : FileSystem) (component_name : String) (v : PyVal),
      v ≠ .str "x.x.x" →
      resolve_component_version fs component_name v = .ok v := by
    intro fs n v hv
    cases v with
    | str s =>
      have hs : s ≠ "x.x.x" := fun hc => hv (by rw [hc])
      simp [resolve_component_version, if_neg hs]
    | int i => rfl
    | bool b => rfl
    | null => rfl
    | list l => rfl
    | dict d => rfl
  refine ⟨hconc, ?_, ?_⟩
  · intro fs n v r h
    by_cases hv : v = PyVal.str "x.x.x"
    · subst hv
      simp only [resolve_component_version, if_pos rfl] at h
      cases hav : (get_component_versions fs n).isEmpty with
      | true =>
        rw [hav] at h
        simp only [if_pos rfl] at h
        have hr : r = PyVal.str "x.x.x" := (Except.ok.inj h).symm
        subst hr
        simp [resolve_component_version, hav]
      | false =>
        rw [hav] at h
        simp only [Bool.false_eq_true, if_neg (fun hc => hc)] at h
        cases hlat : get_latest_version (get_component_versions fs n) with
        | error e => rw [hlat] at h; exact Except.noConfusion h
        | ok l =>
          rw [hlat] at h
          have hr : r = PyVal.str l := (Except.ok.inj h).symm
          subst hr
          have hl : l ≠ "x.x.x" := by
            intro hc
            obtain ⟨_, kl, hkl, _⟩ :=
              get_latest_version_ok_spec _ l hlat
            rw [hc] at hkl
            have hnone : version_key "x.x.x" = Option.none := by decide
            rw [hnone] at hkl
            exact Option.noConfusion hkl
          exact hconc fs n (PyVal.str l)
            (fun hc => hl (PyVal.str.inj hc))
    · have hr : r = v := (Except.ok.inj ((hconc fs n v hv).symm.trans h)).symm
      subst hr
      exact hconc fs n r hv
  · intro fs n version hv
    simp [load_component, if_neg hv]

/-- Witness for C2 at a concrete filesystem and the concrete version
"9.9.9", which is absent from the available set. -/
theorem resolve_concrete_version_identity_witness :
    ((PyVal.str "9.9.9" ≠ PyVal.str "x.x.x") ∧
      resolve_component_version
        ⟨[("compA", [("1.0.0", PyVal.null)])], []⟩ "compA"
        (.str "9.9.9") = .ok (.str "9.9.9")) ∧
    (resolve_component_version
        ⟨[("compA", [("1.0.0", PyVal.null)])], []⟩ "compA"
        (.str "x.x.x") = .ok (.str "1.0.0") ∧
      resolve_component_version
        ⟨[("compA", [("1.0.0", PyVal.null)])], []⟩ "compA"
        (.str "1.0.0") = .ok (.str "1.0.0")) ∧
    (("9.9.9" : String) ≠ "x.x.x" ∧
      load_component ⟨[("compA", [("1.0.0", PyVal.null)])], []⟩ "compA"
          "9.9.9" =
        read_component_file ⟨[("compA", [("1.0.0", PyVal.null)])], []⟩
          "compA" "9.9.9") :=
  ⟨⟨fun hc => absurd (PyVal.str.inj hc) (by decide),
      resolve_concrete_version_identity.1 _ "compA" _
        (fun hc => absurd (PyVal.str.inj hc) (by decide))⟩,
    ⟨rfl,
      resolve_concrete_version_identity.2.1 _ "compA" (.str "x.x.x") _ rfl⟩,
    ⟨by decide,
      resolve_concrete_version_identity.2.2 _ "compA" _ (by decide)⟩⟩

/-- C7: For every version string one of whose segments does not parse as an
integer (for example the pre-release suffix in "1.0.0-beta"),
`get_latest_version` over any list containing that string never returns a
result: it fails with the `ValueError` from the integer-parse step. -/
theorem invalid_segment_fails_latest :
    (∀ (versions : List String) (v : String), v ∈ versions →
      version_key v = Option.none →
      ∀ r, get_latest_version versions ≠ .ok r) ∧
    version_key "1.0.0-beta" = Option.none ∧
    get_latest_version ["1.2.0", "1.0.0-beta"] =
      .error (.valueError
        ("invalid literal for int() with base 10 in " ++ "1.0.0-beta")) := by
  refine ⟨?_, by decide, by decide⟩
  intro versions v hv hkey r hok
  obtain ⟨_, _, _, hall⟩ := get_latest_version_ok_spec versions r hok
  obtain ⟨kv, hkv, _⟩ := hall v hv
  rw [hkey] at hkv
  exact Option.noConfusion hkv

/-- Witness for C7 at the list {"1.2.0", "1.0.0-beta"}. -/
theorem invalid_segment_fails_latest_witness :
    (("1.0.0-beta" : String) ∈ (["1.2.0", "1.0.0-beta"] : List String) ∧
      version_key "1.0.0-beta" = Option.none) ∧
    (∀ r, get_latest_version ["1.2.0", "1.0.0-beta"] ≠ .ok r) :=
  ⟨⟨by decide, by decide⟩,
    invalid_segment_fails_latest.1 _ "1.0.0-beta" (by decide) (by decide)⟩

/-- C3 counterexample: with no component files at all (an empty version set
for "compA"), resolving the components of a recipe that requests the latest
sentinel `"x.x.x"` for "compA" does NOT fail with a NotFound error — it
succeeds and leaves the sentinel in place, refuting the claim that latest
resolution over an empty set fails at every place it is applied. -/
theorem resolve_empty_availability_no_error :
    resolve_recipe_components ⟨[], []⟩
      [("Name", .str "r"),
        ("Components",
          .list [.dict [("compA", .dict [("Version", .str "x.x.x")])]])] =
    .ok [("Name", .str "r"),
        ("Components",
          .list [.dict [("compA", .dict [("Version", .str "x.x.x")])]])] :=
  rfl

/-- C3 (amended): resolving latest against an empty version set fails with
a `ValueError` at recipe-file selection (`load_recipe`) and at component
loading (`load_component`); at per-component resolution inside a loaded
recipe it does not fail, but leaves the `"x.x.x"` sentinel in place
unresolved. -/
theorem latest_empty_set_errors :
    (∀ fs : FileSystem, get_recipe_versions fs = [] →
      load_recipe fs "latest" =
        .error (.valueError "No recipe files found")) ∧
    (∀ (fs : FileSystem) (component_name : String),
      get_component_versions fs component_name = [] →
      load_component fs component_name "x.x.x" =
        .error (.valueError
          ("Component " ++ component_name ++ " not found"))) ∧
    (∀ (fs : FileSystem) (component_name : String),
      get_component_versions fs component_name = [] →
      resolve_component_version fs component_name (.str "x.x.x") =
        .ok (.str "x.x.x")) := by
  refine ⟨?_, ?_, ?_⟩
  · intro fs h
    simp [load_recipe, h]
  · intro fs n h
    simp [load_component, h]
  · intro fs n h
    simp [resolve_component_version, h]

/-- Witness for the amended C3 at a filesystem with no files. -/
theorem latest_empty_set_errors_witness :
    (get_recipe_versions ⟨[], []⟩ = [] ∧
      get_component_versions ⟨[], []⟩ "compA" = []) ∧
    (load_recipe ⟨[], []⟩ "latest" =
        .error (.valueError "No recipe files found") ∧
      load_component ⟨[], []⟩ "compA" "x.x.x" =
        .error (.valueError ("Component " ++ "compA" ++ " not found")) ∧
      resolve_component_version ⟨[], []⟩ "compA" (.str "x.x.x") =
        .ok (.str "x.x.x")) :=
  ⟨⟨rfl, rfl⟩,
    latest_empty_set_errors.1 _ rfl,
    latest_empty_set_errors.2.1 _ "compA" rfl,
    latest_empty_set_errors.2.2 _ "compA" rfl⟩

/-- C4: Loading a recipe with an explicit concrete version reads exactly
the recipe file whose stem equals that version (and fails with
`FileNotFoundError` when no such file exists); loading with the `"latest"`
sentinel reads the recipe file whose stem is the maximum version under
integer-tuple ordering among all recipe files present. -/
theorem load_recipe_selects_file :
    (∀ (fs : FileSystem) (version : String) (y : PyVal),
      version ≠ "latest" →
      assocFind fs.recipes version = some y →
      load_recipe fs version = .ok y) ∧
    (∀ (fs : FileSystem) (version : String), version ≠ "latest" →
      assocFind fs.recipes version = Option.none →
      load_recipe fs version =
        .error (.fileNotFoundError
          ("Recipe file not found: recipes/" ++ version ++ ".yaml"))) ∧
    (∀ fs : FileSystem, get_recipe_versions fs ≠ [] →
      (∀ v ∈ get_recipe_versions fs, (version_key v).isSome) →
      ∃ m km y, get_latest_version (get_recipe_versions fs) = .ok m ∧
        m ∈ get_recipe_versions fs ∧ version_key m = some km ∧
        (∀ v kv, v ∈ get_recipe_versions fs → version_key v = some kv →
          tupleLt km kv = false) ∧
        assocFind fs.recipes m = some y ∧
        load_recipe fs "latest" = .ok y) := by
  refine ⟨?_, ?_, ?_⟩
  · intro fs version y hv h
    simp [load_recipe, if_neg hv, read_recipe_file, h]
  · intro fs version hv h
    simp [load_recipe, if_neg hv, read_recipe_file, h]
  · intro fs hne hall
    obtain ⟨m, hm⟩ := get_latest_version_ok_of_parse _ hne hall
    obtain ⟨hmem, km, hkm, hmax⟩ := get_latest_version_ok_spec _ m hm
    obtain ⟨y, hy⟩ := assocFind_of_mem_keys fs.recipes m hmem
    refine ⟨m, km, y, hm, hmem, hkm, ?_, hy, ?_⟩
    · intro v kv hv hkv
      obtain ⟨kv2, hkv2, hle⟩ := hmax v hv
      have heq : kv2 = kv := Option.some.inj (hkv2.symm.trans hkv)
      exact heq ▸ hle
    · have hL : (get_recipe_versions fs).isEmpty = false := by
        cases hL2 : (get_recipe_versions fs).isEmpty with
        | false => rfl
        | true => exact absurd (List.isEmpty_iff.mp hL2) hne
      simp [load_recipe, hL, hm, read_recipe_file, hy]

/-- Witness for C4 at a filesystem with recipe stems
{"1.0.0", "1.10.0", "1.9.0"}. -/
theorem load_recipe_selects_file_witness :
    ((("1.0.0" : String) ≠ "latest" ∧
      assocFind
        (FileSystem.mk []
          [("1.0.0", PyVal.str "a"), ("1.10.0", PyVal.str "b"),
            ("1.9.0", PyVal.str "c")]).recipes "1.0.0" =
        some (PyVal.str "a")) ∧
      load_recipe
        ⟨[], [("1.0.0", PyVal.str "a"), ("1.10.0", PyVal.str "b"),
          ("1.9.0", PyVal.str "c")]⟩ "1.0.0" = .ok (PyVal.str "a")) ∧
    ((get_recipe_versions
        ⟨[], [("1.0.0", PyVal.str "a"), ("1.10.0", PyVal.str "b"),
          ("1.9.0", PyVal.str "c")]⟩ ≠ [] ∧
      (∀ v ∈ get_recipe_versions
        ⟨[], [("1.0.0", PyVal.str "a"), ("1.10.0", PyVal.str "b"),
          ("1.9.0", PyVal.str "c")]⟩, (version_key v).isSome)) ∧
      ∃ m km y,
        get_latest_version (get_recipe_versions
          ⟨[], [("1.0.0", PyVal.str "a"), ("1.10.0", PyVal.str "b"),
            ("1.9.0", PyVal.str "c")]⟩) = .ok m ∧
        m ∈ get_recipe_versions
          ⟨[], [("1.0.0", PyVal.str "a"), ("1.10.0", PyVal.str "b"),
            ("1.9.0", PyVal.str "c")]⟩ ∧
        version_key m = some km ∧
        (∀ v kv, v ∈ get_recipe_versions
            ⟨[], [("1.0.0", PyVal.str "a"), ("1.10.0", PyVal.str "b"),
              ("1.9.0", PyVal.str "c")]⟩ →
          version_key v = some kv → tupleLt km kv = false) ∧
        assocFind
          (FileSystem.mk []
            [("1.0.0", PyVal.str "a"), ("1.10.0", PyVal.str "b"),
              ("1.9.0", PyVal.str "c")]).recipes m = some y ∧
        load_recipe
          ⟨[], [("1.0.0", PyVal.str "a"), ("1.10.0", PyVal.str "b"),
            ("1.9.0", PyVal.str "c")]⟩ "latest" = .ok y) :=
  ⟨⟨⟨by decide, rfl⟩,
      load_recipe_selects_file.1 _ "1.0.0" _ (by decide) rfl⟩,
    ⟨by decide, by decide⟩,
    load_recipe_selects_file.2.2 _ (by decide) (by decide)⟩

/-- The end-to-end example filesystem of C5: component files
`components/compA/{1.0.0.yaml, 1.1.0.yaml}` and the single recipe file
`recipes/1.0.0.yaml` whose `Components` list requests `"x.x.x"` for
`compA`. -/
def exampleRecipe : PyDict :=
  [("Name", .str "test"),
    ("Components",
      .list [.dict [("compA", .dict [("Version", .str "x.x.x")])]])]

def exampleFS : FileSystem :=
  ⟨[("compA", [("1.0.0", PyVal.null), ("1.1.0", PyVal.null)])],
    [("1.0.0", PyVal.dict exampleRecipe)]⟩

/-- C5: End-to-end component resolution: with recipe file
`recipes/1.0.0.yaml` whose `Components` entry for `compA` requests
`"x.x.x"`, and component files `components/compA/{1.0.0.yaml, 1.1.0.yaml}`
present, loading the latest recipe and resolving its components yields a
`Components` entry reporting version "1.1.0" for `compA`. -/
theorem end_to_end_compA_resolves_latest :
    load_recipe exampleFS "latest" = .ok (PyVal.dict exampleRecipe) ∧
    resolve_recipe_components exampleFS exampleRecipe =
      .ok [("Name", .str "test"),
        ("Components",
          .list [.dict [("compA", .dict [("Version", .str "1.1.0")])]])] :=
  ⟨rfl, rfl⟩

/-- Transport of `ResolvedEntry` through the flattening of the rebuilt
entries: each rebuilt entry is a single-item dict, so flattening the output
list yields one `(name, {Version: v})` item per input item. -/
theorem forallTwo_resolved_flatten (fs : FileSystem) :
    ∀ (pairs : List (String × PyVal)) (out : List PyVal),
    List.Forall₂ (ResolvedEntry fs) pairs out →
    List.Forall₂ (fun (p q : String × PyVal) => p.1 = q.1 ∧
        resolve_component_version fs p.1 (info_version p.2) =
          .ok (info_version q.2))
      pairs (out.flatMap config_items)
  | _, _, List.Forall₂.nil => List.Forall₂.nil
  | p :: ps, r :: rs, List.Forall₂.cons hpr hrest => by
    obtain ⟨v, hres, hr⟩ := hpr
    subst hr
    have hflat : (PyVal.dict [(p.1, PyVal.dict [("Version", v)])] ::
          rs).flatMap config_items =
        (p.1, PyVal.dict [("Version", v)]) :: rs.flatMap config_items := by
      simp [config_items]
    rw [hflat]
    exact List.Forall₂.cons
      ⟨rfl, by simpa [info_version, dictGetD, assocFind] using hres⟩
      (forallTwo_resolved_flatten fs ps rs hrest)

/-- Every entry of the rebuilt `Components` list is a single-key dict whose
value is a dict holding exactly the key `Version`. -/
theorem resolved_out_shape (fs : FileSystem) :
    ∀ (pairs : List (String × PyVal)) (out : List PyVal),
    List.Forall₂ (ResolvedEntry fs) pairs out →
    ∀ r ∈ out, ∃ n v, r = PyVal.dict [(n, PyVal.dict [("Version", v)])]
  | _, _, List.Forall₂.nil => by intro r hr; exact absurd hr (by simp)
  | p :: ps, r :: rs, List.Forall₂.cons hpr hrest => by
    intro w hw
    rcases List.mem_cons.mp hw with h1 | h1
    · obtain ⟨v, _, hr⟩ := hpr
      exact ⟨p.1, v, h1 ▸ hr⟩
    · exact resolved_out_shape fs ps rs hrest w h1

/-- C6: Component resolution changes nothing but the component versions:
whenever `resolve_recipe_components` succeeds, every top-level key other
than `Components` maps to the same value as in the input recipe, and the
flattened `(name, info)` items of the `Components` list correspond
one-to-one and in order, with the same component names and the `Version`
value replaced by its resolved version. -/
theorem resolve_components_frame :
    ∀ (fs : FileSystem) (recipe resolved : PyDict),
      resolve_recipe_components fs recipe = .ok resolved →
      (∀ k, k ≠ "Components" → assocFind resolved k = assocFind recipe k) ∧
      List.Forall₂ (fun (p q : String × PyVal) => p.1 = q.1 ∧
          resolve_component_version fs p.1 (info_version p.2) =
            .ok (info_version q.2))
        (component_pairs recipe) (component_pairs resolved) := by
  intro fs recipe resolved h
  cases hcomps : dictGetD recipe "Components" (.list []) with
  | list configs =>
    simp only [resolve_recipe_components, hcomps] at h
    cases hout : resolve_config_list fs configs with
    | error e => rw [hout] at h; exact Except.noConfusion h
    | ok out =>
      rw [hout] at h
      have hres : resolved = dictSet recipe "Components" (.list out) :=
        (Except.ok.inj h).symm
      subst hres
      constructor
      · intro k hk
        exact assocFind_dictSet_other recipe "Components" (.list out) k hk
      · have hpairs := resolve_config_list_ok_spec fs configs out hout
        have h1 : component_pairs recipe = configs.flatMap config_items := by
          simp [component_pairs, hcomps]
        have h2 : component_pairs (dictSet recipe "Components" (.list out)) =
            out.flatMap config_items := by
          simp [component_pairs, dictGetD,
            assocFind_dictSet_self recipe "Components" (.list out)]
        rw [h1, h2]
        exact forallTwo_resolved_flatten fs _ _ hpairs
  | str s =>
    simp only [resolve_recipe_components, hcomps] at h
    exact Except.noConfusion h
  | int i =>
    simp only [resolve_recipe_components, hcomps] at h
    exact Except.noConfusion h
  | bool b =>
    simp only [resolve_recipe_components, hcomps] at h
    exact Except.noConfusion h
  | null =>
    simp only [resolve_recipe_components, hcomps] at h
    exact Except.noConfusion h
  | dict d =>
    simp only [resolve_recipe_components, hcomps] at h
    exact Except.noConfusion h

/-- Witness for C6 at a concrete recipe with a `Name`, a `ParentImage` and
one component requesting the sentinel. -/
theorem resolve_components_frame_witness :
    (resolve_recipe_components
        ⟨[("compA", [("2.0.0", PyVal.null)])], []⟩
        [("Name", .str "n"),
          ("Components",
            .list [.dict [("compA", .dict [("Version", .str "x.x.x")])]]),
          ("ParentImage", .str "p")] =
      .ok [("Name", .str "n"),
          ("Components",
            .list [.dict [("compA", .dict [("Version", .str "2.0.0")])]]),
          ("ParentImage", .str "p")]) ∧
    ((∀ k, k ≠ "Components" →
        assocFind [("Name", PyVal.str "n"),
          ("Components",
            PyVal.list [.dict [("compA",
              PyVal.dict [("Version", PyVal.str "2.0.0")])]]),
          ("ParentImage", PyVal.str "p")] k =
        assocFind [("Name", PyVal.str "n"),
          ("Components",
            PyVal.list [.dict [("compA",
              PyVal.dict [("Version", PyVal.str "x.x.x")])]]),
          ("ParentImage", PyVal.str "p")] k) ∧
      List.Forall₂ (fun (p q : String × PyVal) => p.1 = q.1 ∧
          resolve_component_version ⟨[("compA", [("2.0.0", PyVal.null)])], []⟩
              p.1 (info_version p.2) =
            .ok (info_version q.2))
        (component_pairs [("Name", PyVal.str "n"),
          ("Components",
            PyVal.list [.dict [("compA",
              PyVal.dict [("Version", PyVal.str "x.x.x")])]]),
          ("ParentImage", PyVal.str "p")])
        (component_pairs [("Name", PyVal.str "n"),
          ("Components",
            PyVal.list [.dict [("compA",
              PyVal.dict [("Version", PyVal.str "2.0.0")])]]),
          ("ParentImage", PyVal.str "p")])) :=
  ⟨rfl, resolve_components_frame _ _ _ rfl⟩

/-- C10: On success, every entry of the resolved `Components` list is
normalized to a single-key dict `{name: {Version: v}}`: any other key of a
info mapping of a component reference in the input recipe is absent from the
resolved recipe. -/
theorem resolved_components_normalized :
    ∀ (fs : FileSystem) (recipe resolved : PyDict),
      resolve_recipe_components fs recipe = .ok resolved →
      ∃ out, dictGetD resolved "Components" (.list []) = .list out ∧
        ∀ c ∈ out, ∃ n v,
          c = PyVal.dict [(n, PyVal.dict [("Version", v)])] := by
  intro fs recipe resolved h
  cases hcomps : dictGetD recipe "Components" (.list []) with
  | list configs =>
    simp only [resolve_recipe_components, hcomps] at h
    cases hout : resolve_config_list fs configs with
    | error e => rw [hout] at h; exact Except.noConfusion h
    | ok out =>
      rw [hout] at h
      have hres : resolved = dictSet recipe "Components" (.list out) :=
        (Except.ok.inj h).symm
      subst hres
      refine ⟨out, ?_, ?_⟩
      · simp [dictGetD, assocFind_dictSet_self]
      · exact resolved_out_shape fs _ _
          (resolve_config_list_ok_spec fs configs out hout)
  | str s =>
    simp only [resolve_recipe_components, hcomps] at h
    exact Except.noConfusion h
  | int i =>
    simp only [resolve_recipe_components, hcomps] at h
    exact Except.noConfusion h
  | bool b =>
    simp only [resolve_recipe_components, hcomps] at h
    exact Except.noConfusion h
  | null =>
    simp only [resolve_recipe_components, hcomps] at h
    exact Except.noConfusion h
  | dict d =>
    simp only [resolve_recipe_components, hcomps] at h
    exact Except.noConfusion h

/-- Witness for C10 at a component info mapping carrying an extra `Reboot`
key, which is dropped from the resolved recipe. -/
theorem resolved_components_normalized_witness :
    (resolve_recipe_components ⟨[], []⟩
        [("Components", .list [.dict [("compA",
          .dict [("Version", .str "1.0.0"), ("Reboot", .bool true)])]])] =
      .ok [("Components", .list [.dict [("compA",
          .dict [("Version", .str "1.0.0")])]])]) ∧
    (∃ out, dictGetD [("Components", PyVal.list [.dict [("compA",
          PyVal.dict [("Version", PyVal.str "1.0.0")])]])] "Components"
        (.list []) = .list out ∧
      ∀ c ∈ out, ∃ n v,
        c = PyVal.dict [(n, PyVal.dict [("Version", v)])]) :=
  ⟨rfl, resolved_components_normalized ⟨[], []⟩
    [("Components", .list [.dict [("compA",
      .dict [("Version", .str "1.0.0"), ("Reboot", .bool true)])]])]
    [("Components", .list [.dict [("compA",
      .dict [("Version", .str "1.0.0")])]])] rfl⟩

/-- C8: Remote existence lookups mask every error as "does not exist": a
raised error makes `_get_existing_component_arn` and
`_get_existing_recipe_arn` return `None`, and consequently
`_create_components` under an always-failing remote declares a brand-new
resource for every component instead of referencing an existing one. -/
theorem remote_lookup_errors_masked :
    (∀ (e : String) (name version : String),
      get_existing_component_arn (.error e) name version = Option.none) ∧
    (∀ (e : String) (name version : String),
      get_existing_recipe_arn (.error e) name version = Option.none) ∧
    (∀ (list_components : String → String →
          Except String (List ResourceSummary))
      (data : List (String × PyDict))
      (out : List (String × ComponentResource)),
      (∀ n v, ∃ e, list_components n v = .error e) →
      create_components list_components data = .ok out →
      ∀ p ∈ out, ∃ n pl ver dat,
        p.2 = ComponentResource.cfnComponent n pl ver dat) := by
  refine ⟨fun e n v => rfl, fun e n v => rfl, ?_⟩
  intro lc data out herr h
  induction data generalizing out with
  | nil =>
    simp only [create_components, Except.ok.injEq] at h
    subst h
    intro p hp
    exact absurd hp (by simp)
  | cons hd tl ih =>
    obtain ⟨cn, cd⟩ := hd
    intro p hp
    cases hv : dictGetE cd "Version" with
    | error e =>
      simp only [create_components, hv] at h
      exact Except.noConfusion h
    | ok vval =>
      cases hs : asStr vval with
      | error e =>
        simp only [create_components, hv, hs] at h
        exact Except.noConfusion h
      | ok version =>
        obtain ⟨e, he⟩ := herr cn version
        cases hn : dictGetE cd "Name" with
        | error e2 =>
          simp only [create_components, hv, hs, he,
            get_existing_component_arn, hn] at h
          exact Except.noConfusion h
        | ok nval =>
          cases hpl : dictGetE cd "Platform" with
          | error e2 =>
            simp only [create_components, hv, hs, he,
              get_existing_component_arn, hn, hpl] at h
            exact Except.noConfusion h
          | ok plval =>
            cases hd2 : dictGetE cd "Data" with
            | error e2 =>
              simp only [create_components, hv, hs, he,
                get_existing_component_arn, hn, hpl, hd2] at h
              exact Except.noConfusion h
            | ok dval =>
              cases hrest : create_components lc tl with
              | error e2 =>
                simp only [create_components, hv, hs, he,
                  get_existing_component_arn, hn, hpl, hd2, hrest] at h
                exact Except.noConfusion h
              | ok rs =>
                simp only [create_components, hv, hs, he,
                  get_existing_component_arn, hn, hpl, hd2, hrest,
                  Except.ok.injEq] at h
                have hout : out =
                    (cn, ComponentResource.cfnComponent nval plval vval
                      dval) :: rs := h.symm
                subst hout
                rcases List.mem_cons.mp hp with h1 | h1
                · exact ⟨nval, plval, vval, dval, by rw [h1]⟩
                · exact ih rs hrest p h1

/-- Witness for C8 under a remote that always raises. -/
theorem remote_lookup_errors_masked_witness :
    ((∀ n v : String,
        ∃ e, (fun (_ _ : String) =>
          (Except.error "boom" : Except String (List ResourceSummary))) n v =
          .error e) ∧
      create_components
        (fun _ _ => .error "boom")
        [("compA",
          [("Name", PyVal.str "compA"), ("Platform", PyVal.str "Linux"),
            ("Version", PyVal.str "1.0.0"), ("Data", PyVal.str "d")])] =
      .ok [("compA",
        ComponentResource.cfnComponent (PyVal.str "compA")
          (PyVal.str "Linux") (PyVal.str "1.0.0") (PyVal.str "d"))]) ∧
    (∀ p ∈ [("compA",
        ComponentResource.cfnComponent (PyVal.str "compA")
          (PyVal.str "Linux") (PyVal.str "1.0.0") (PyVal.str "d"))],
      ∃ n pl ver dat,
        (p : String × ComponentResource).2 =
          ComponentResource.cfnComponent n pl ver dat) :=
  ⟨⟨fun _ _ => ⟨"boom", rfl⟩, rfl⟩,
    remote_lookup_errors_masked.2.2 (fun _ _ => .error "boom")
      [("compA",
        [("Name", PyVal.str "compA"), ("Platform", PyVal.str "Linux"),
          ("Version", PyVal.str "1.0.0"), ("Data", PyVal.str "d")])]
      [("compA",
        ComponentResource.cfnComponent (PyVal.str "compA")
          (PyVal.str "Linux") (PyVal.str "1.0.0") (PyVal.str "d"))]
      (fun _ _ => ⟨"boom", rfl⟩) rfl⟩

/-- C9: The try/except wrapper of the entry point turns every failure raised
during the run (from the local pipeline `main_run` or from the subsequent
stack synthesis) into exit status 1 with an `Error: ...` diagnostic, and
ends with exit status 0 and no diagnostic exactly when everything
succeeded. -/
theorem main_exit_status_spec :
    ∀ (fs : FileSystem) (recipe_version : String)
      (synth : PyDict → List (String × PyVal) → Except PyErr Unit),
      ((python_main fs recipe_version synth).1 = 0 ∨
        (python_main fs recipe_version synth).1 = 1) ∧
      ((python_main fs recipe_version synth).1 = 0 ↔
        (python_main fs recipe_version synth).2 = Option.none ∧
        ∃ r c, main_run fs recipe_version = .ok (r, c) ∧
          synth r c = .ok ()) ∧
      (∀ e, main_run fs recipe_version = .error e →
        python_main fs recipe_version synth =
          (1, some ("Error: " ++ errMessage e))) ∧
      (∀ r c e, main_run fs recipe_version = .ok (r, c) →
        synth r c = .error e →
        python_main fs recipe_version synth =
          (1, some ("Error: " ++ errMessage e))) := by
  intro fs rv synth
  cases hm : main_run fs rv with
  | error e =>
    have hpm : python_main fs rv synth =
        (1, some ("Error: " ++ errMessage e)) := by
      simp only [python_main, hm]
    refine ⟨?_, ?_, ?_, ?_⟩
    · rw [hpm]; exact Or.inr rfl
    · rw [hpm]
      constructor
      · intro h; exact absurd h one_ne_zero
      · rintro ⟨_, r, c, hok, _⟩
        exact Except.noConfusion hok
    · intro e2 he2
      exact (Except.error.inj he2) ▸ hpm
    · intro r c e2 hok _
      exact Except.noConfusion hok
  | ok rc =>
    obtain ⟨r, c⟩ := rc
    cases hs : synth r c with
    | error e =>
      have hpm : python_main fs rv synth =
          (1, some ("Error: " ++ errMessage e)) := by
        simp only [python_main, hm, hs]
      refine ⟨?_, ?_, ?_, ?_⟩
      · rw [hpm]; exact Or.inr rfl
      · rw [hpm]
        constructor
        · intro h; exact absurd h one_ne_zero
        · rintro ⟨_, r2, c2, hok, hs2⟩
          have hpair : (r, c) = (r2, c2) := Except.ok.inj hok
          have hr2 : r2 = r := (congrArg Prod.fst hpair).symm
          have hc2 : c2 = c := (congrArg Prod.snd hpair).symm
          rw [hr2, hc2, hs] at hs2
          exact Except.noConfusion hs2
      · intro e2 he2
        exact Except.noConfusion he2
      · intro r2 c2 e2 hok hs2
        have hpair : (r, c) = (r2, c2) := Except.ok.inj hok
        have hr2 : r2 = r := (congrArg Prod.fst hpair).symm
        have hc2 : c2 = c := (congrArg Prod.snd hpair).symm
        rw [hr2, hc2, hs] at hs2
        exact (Except.error.inj hs2) ▸ hpm
    | ok u =>
      cases u
      have hpm : python_main fs rv synth = (0, Option.none) := by
        simp only [python_main, hm, hs]
      refine ⟨?_, ?_, ?_, ?_⟩
      · rw [hpm]; exact Or.inl rfl
      · rw [hpm]
        constructor
        · intro _; exact ⟨rfl, r, c, rfl, hs⟩
        · intro _; rfl
      · intro e2 he2
        exact Except.noConfusion he2
      · intro r2 c2 e2 hok hs2
        have hpair : (r, c) = (r2, c2) := Except.ok.inj hok
        have hr2 : r2 = r := (congrArg Prod.fst hpair).symm
        have hc2 : c2 = c := (congrArg Prod.snd hpair).symm
        rw [hr2, hc2, hs] at hs2
        exact Except.noConfusion hs2

/-- Witness for C9: with no recipe files and a trivially succeeding
synthesis step, the run exits with status 1 and the `No recipe files found`
diagnostic. -/
theorem main_exit_status_spec_witness :
    (main_run ⟨[], []⟩ "latest" =
      .error (.valueError "No recipe files found")) ∧
    python_main ⟨[], []⟩ "latest" (fun _ _ => .ok ()) =
      (1, some ("Error: " ++
        errMessage (.valueError "No recipe files found"))) :=
  ⟨rfl,
    (main_exit_status_spec ⟨[], []⟩ "latest" (fun _ _ => .ok ())).2.2.1
      (.valueError "No recipe files found") rfl⟩

end CdkDeploy
